import Mathlib

/-!
Shallow embedding of the logql query-execution engine.

The data model mirrors `src/schema.rs` (`ColumnType`), `src/parser/values.rs`
(`Type`, `Event`), the consumed fragment of the sqlparser AST
(`Value`, `Expr`, `BinaryOperator`, `SelectItem`, `Offset`, `Query`,
`Statement`), and `src/error.rs` (`Error`).  The pipeline stages mirror
`TableResult::process / offset / limit / project` from `src/engine.rs` and
`TableResult::filter` with its comparison matrix from `src/engine/filter.rs`
(the dedicated filter module; `engine.rs` retains an older inline copy of the
filter that the module supersedes).

Machine integers are modelled as `Int`/`Nat` with the explicit range checks
Rust's `from_str` performs (`i32`, `i64`, 64-bit `usize`).  `f32`/`f64` column
values and numeric literals are modelled as exact rationals: the decimal text
is evaluated exactly instead of being rounded to a binary float; no claim in
this development depends on IEEE rounding.  `chrono::DateTime<Utc>` values are
modelled as an instant, the signed number of seconds since the Unix epoch, and
the literal parser covers the whole-second RFC 3339 fragment
`YYYY-MM-DDThh:mm:ss` followed by `Z` or `±hh:mm` that the repository's
queries and tests use.  A Rust `panic!` (every `.unwrap()` on a failed
`Option`/`Result`) is modelled as the distinguished outcome
`Fault.panicked`, kept apart from the typed errors of `src/error.rs`.
-/

namespace LogQL

/-- `ColumnType` from `src/schema.rs` (names follow the Rust variants). -/
inductive ColumnType
  | string
  | int32
  | int64
  | bool
  | float
  | double
  | dateTime
  deriving DecidableEq, Repr

/-- `Type` from `src/parser/values.rs`: the runtime tagged value.
`float`/`double` carry the exact rational denoted by the source text;
`dateTime` carries the instant in seconds since the Unix epoch. -/
inductive Ty
  | str (s : String)
  | int32 (v : Int)
  | int64 (v : Int)
  | bool (b : Bool)
  | float (v : ℚ)
  | double (v : ℚ)
  | dateTime (instant : Int)
  deriving DecidableEq, Repr

/-- The sqlparser `Value` variants the engine consumes.  `number` keeps the
raw numeric text together with the `long` flag exactly as sqlparser does. -/
inductive Value
  | number (text : String) (long : Bool)
  | singleQuotedString (s : String)
  | boolean (b : Bool)
  deriving DecidableEq, Repr

/-- The sqlparser `BinaryOperator` constructors the engine dispatches on;
every other operator falls into `other` (the `_` arm of the Rust match). -/
inductive BinaryOperator
  | eq
  | notEq
  | lt
  | ltEq
  | gt
  | gtEq
  | other
  deriving DecidableEq, Repr

/-- The sqlparser `Expr` fragment the engine consumes; `otherExpr` stands for
every remaining constructor (they all hit `_ => Err(InvalidQuery)` arms). -/
inductive Expr
  | identifier (name : String)
  | value (v : Value)
  | binaryOp (left : Expr) (op : BinaryOperator) (right : Expr)
  | otherExpr
  deriving DecidableEq, Repr

/-- The sqlparser `SelectItem` fragment consumed by `TableResult::project`. -/
inductive SelectItem
  | unnamedExpr (e : Expr)
  | wildcard
  | exprWithAlias (e : Expr) (aliasName : String)
  | otherItem
  deriving DecidableEq, Repr

/-- One `ORDER BY` key of the sqlparser AST (`OrderByExpr`).  The engine
never reads this field; it is carried to state claims about `ORDER BY`. -/
structure OrderByExpr where
  expr : Expr
  asc : Option Bool
  deriving DecidableEq, Repr

/-- The body of a `SELECT`: sqlparser's `Select` fields the engine reads. -/
structure SelectBody where
  projection : List SelectItem
  selection : Option Expr
  deriving DecidableEq, Repr

/-- sqlparser `SetExpr`: the engine only handles `SetExpr::Select`. -/
inductive SetExpr
  | select (s : SelectBody)
  | otherBody
  deriving DecidableEq, Repr

/-- sqlparser `Offset` clause; the engine only reads its `value` field. -/
structure OffsetClause where
  value : Expr
  deriving DecidableEq, Repr

/-- The sqlparser `Query` fields read by the engine, plus `orderBy`,
which is present in the AST but never examined by any stage. -/
structure QueryAst where
  body : SetExpr
  orderBy : List OrderByExpr
  limit : Option Expr
  offset : Option OffsetClause
  deriving DecidableEq, Repr

/-- sqlparser `Statement`: the engine only handles `Statement::Query`. -/
inductive Statement
  | query (q : QueryAst)
  | otherStatement
  deriving DecidableEq, Repr

/-- The engine-raised variants of `Error` from `src/error.rs`.
`typeMismatch` carries declared type, runtime value and offending literal,
exactly the payload built at the construction sites in
`src/engine/filter.rs`. -/
inductive Error
  | invalidQuery (stmt : Statement)
  | typeMismatch (schemaType : ColumnType) (value : Ty) (literal : Value)
  deriving DecidableEq, Repr

/-- An execution outcome: a typed `Error` or a Rust panic (`unwrap` on
`None`/`Err`). -/
inductive Fault
  | error (e : Error)
  | panicked
  deriving DecidableEq, Repr

/-- Fallible engine computations. -/
abbrev Exc (α : Type) := Except Fault α

instance {ε α : Type} [DecidableEq ε] [DecidableEq α] : DecidableEq (Except ε α) := fun x y =>
  match x, y with
  | .ok a, .ok b => if h : a = b then .isTrue (by rw [h]) else .isFalse (by simp [h])
  | .error e, .error f => if h : e = f then .isTrue (by rw [h]) else .isFalse (by simp [h])
  | .ok _, .error _ => .isFalse (by simp)
  | .error _, .ok _ => .isFalse (by simp)

/-- `Option::unwrap` / `Result::unwrap`: a missing value is a panic. -/
def unwrap {α : Type} : Option α → Exc α
  | some a => .ok a
  | none => .error .panicked

/-- One column of the schema (`Column` in `src/schema.rs`). -/
structure SchemaColumn where
  name : String
  type : ColumnType
  multiline : Bool
  deriving DecidableEq, Repr

/-- `Event` from `src/parser/values.rs`.  The `HashMap<String, Type>` is
modelled as an association list with unique keys; `mapGet`, `mapRemove` and
`mapInsert` below give it the HashMap operations the engine uses. -/
structure Event where
  values : List (String × Ty)
  extraText : Option (List String)
  deriving DecidableEq, Repr

/-- `TableResult` from `src/engine.rs`.  Of the `Parser` field only
`parser.schema.columns` is read by the pipeline, so the embedding carries
that column list directly. -/
structure TableResult where
  columns : List String
  events : List Event
  schemaColumns : List SchemaColumn
  statement : Option Statement
  deriving DecidableEq, Repr

/-- `HashMap::get`. -/
def mapGet : List (String × Ty) → String → Option Ty
  | [], _ => none
  | (k, v) :: rest, key => if k = key then some v else mapGet rest key

/-- `HashMap::remove`: the removed value (if any) and the remaining map. -/
def mapRemove : List (String × Ty) → String → Option Ty × List (String × Ty)
  | [], _ => (none, [])
  | (k, v) :: rest, key =>
    if k = key then (some v, rest)
    else
      let (r, m) := mapRemove rest key
      (r, (k, v) :: m)

/-- `HashMap::insert`: overwrites an existing binding for the key. -/
def mapInsert : List (String × Ty) → String → Ty → List (String × Ty)
  | [], key, v => [(key, v)]
  | (k, w) :: rest, key, v =>
    if k = key then (key, v) :: rest else (k, w) :: mapInsert rest key v

/-- ASCII lower-casing of one character (`u8::to_ascii_lowercase`). -/
def asciiLower (c : Char) : Char :=
  if 'A' ≤ c ∧ c ≤ 'Z' then Char.ofNat (c.toNat + 32) else c

/-- `str::eq_ignore_ascii_case` on character lists. -/
def eqIgnoreAsciiCaseList : List Char → List Char → Bool
  | [], [] => true
  | a :: as, b :: bs => asciiLower a == asciiLower b && eqIgnoreAsciiCaseList as bs
  | _, _ => false

/-- `str::eq_ignore_ascii_case`. -/
def eqIgnoreAsciiCase (a b : String) : Bool :=
  eqIgnoreAsciiCaseList a.data b.data

/-- The numeric value of an ASCII digit. -/
def digitVal (c : Char) : Option Nat :=
  if '0' ≤ c ∧ c ≤ '9' then some (c.toNat - '0'.toNat) else none

/-- Accumulating decimal evaluation of a digit list; `none` on a non-digit. -/
def digitsValAux : Nat → List Char → Option Nat
  | acc, [] => some acc
  | acc, c :: rest =>
    match digitVal c with
    | some d => digitsValAux (acc * 10 + d) rest
    | none => none

/-- The value of a non-empty all-digit character list. -/
def digitsVal : List Char → Option Nat
  | [] => none
  | c :: rest => digitsValAux 0 (c :: rest)

/-- `usize::from_str` on a 64-bit target: an optional `+`, then digits,
value below `2^64`; anything else (including overflow) is a parse error. -/
def parseUsize (s : String) : Option Nat :=
  let cs :=
    match s.data with
    | '+' :: rest => rest
    | cs => cs
  match digitsVal cs with
  | some n => if n < 2 ^ 64 then some n else none
  | none => none

/-- Signed decimal integer text: optional sign, then digits. -/
def parseIntText (s : String) : Option Int :=
  match s.data with
  | '+' :: rest => (digitsVal rest).map Int.ofNat
  | '-' :: rest => (digitsVal rest).map (fun n => -(n : Int))
  | cs => (digitsVal cs).map Int.ofNat

/-- `i32::from_str`: signed decimal text within the `i32` range. -/
def parseI32 (s : String) : Option Int :=
  match parseIntText s with
  | some n => if -(2 ^ 31) ≤ n ∧ n < 2 ^ 31 then some n else none
  | none => none

/-- `i64::from_str`: signed decimal text within the `i64` range. -/
def parseI64 (s : String) : Option Int :=
  match parseIntText s with
  | some n => if -(2 ^ 63) ≤ n ∧ n < 2 ^ 63 then some n else none
  | none => none

/-- Consume leading digits, returning their value, how many there were,
and the rest of the input. -/
def takeDigits : List Char → Nat → Nat → Nat × Nat × List Char
  | [], acc, cnt => (acc, cnt, [])
  | c :: rest, acc, cnt =>
    match digitVal c with
    | some d => takeDigits rest (acc * 10 + d) (cnt + 1)
    | none => (acc, cnt, c :: rest)

/-- `f32::from_str` / `f64::from_str` on the finite-decimal grammar
`[±] digits [. digits] [(e|E) [±] digits]` (at least one digit in the
mantissa), evaluated as an exact rational rather than rounded to a binary
float.  The special forms `inf`/`NaN` are outside the modelled fragment. -/
def parseRatText (s : String) : Option ℚ :=
  let (sign, cs0) :=
    match s.data with
    | '+' :: rest => ((1 : ℚ), rest)
    | '-' :: rest => ((-1 : ℚ), rest)
    | cs => ((1 : ℚ), cs)
  let (ip, ic, cs1) := takeDigits cs0 0 0
  let (fv, fc, cs2) :=
    match cs1 with
    | '.' :: rest => takeDigits rest 0 0
    | _ => (0, 0, cs1)
  if ic + fc = 0 then none
  else
    let mant : ℚ := sign * ((ip : ℚ) + (fv : ℚ) / (10 : ℚ) ^ fc)
    match cs2 with
    | [] => some mant
    | e :: rest =>
      if e = 'e' ∨ e = 'E' then
        let (esign, rest1) :=
          match rest with
          | '+' :: r => ((1 : Int), r)
          | '-' :: r => ((-1 : Int), r)
          | r => ((1 : Int), r)
        let (ev, ec, rest2) := takeDigits rest1 0 0
        if ec = 0 ∨ rest2 ≠ [] then none
        else some (mant * (10 : ℚ) ^ (esign * (ev : Int)))
      else none

/-- Days from the Unix epoch to the civil date `y-m-d` (proleptic Gregorian),
the standard days-from-civil computation used by calendar libraries. -/
def daysFromCivil (year : Int) (month day : Nat) : Int :=
  let y : Int := if month ≤ 2 then year - 1 else year
  let era : Int := (if 0 ≤ y then y else y - 399) / 400
  let yoe : Int := y - era * 400
  let mp : Int := ((month : Int) + 9) % 12
  let doy : Int := (153 * mp + 2) / 5 + (day : Int) - 1
  let doe : Int := yoe * 365 + yoe / 4 - yoe / 100 + doy
  era * 146097 + doe - 719468

/-- Read exactly two digits. -/
def take2 : List Char → Option (Nat × List Char)
  | a :: b :: rest =>
    match digitVal a, digitVal b with
    | some x, some y => some (x * 10 + y, rest)
    | _, _ => none
  | _ => none

/-- Read exactly four digits. -/
def take4 : List Char → Option (Nat × List Char)
  | a :: b :: c :: d :: rest =>
    match digitVal a, digitVal b, digitVal c, digitVal d with
    | some w, some x, some y, some z => some (((w * 10 + x) * 10 + y) * 10 + z, rest)
    | _, _, _, _ => none
  | _ => none

/-- Require one specific character. -/
def expect (c : Char) : List Char → Option (List Char)
  | a :: rest => if a = c then some rest else none
  | [] => none

/-- The instant (seconds since the Unix epoch) denoted by UTC civil fields. -/
def utcInstant (year : Int) (month day hour minute second : Nat) : Int :=
  daysFromCivil year month day * 86400 +
    (hour : Int) * 3600 + (minute : Int) * 60 + (second : Int)

/-- Read a two-digit field followed by the given separator character. -/
def take2Sep (sep : Char) (cs : List Char) : Option (Nat × List Char) :=
  match take2 cs with
  | some (n, rest) =>
    match expect sep rest with
    | some rest1 => some (n, rest1)
    | none => none
  | none => none

/-- Parse the trailing timezone designator: `Z`/`z` means offset zero, and
`±hh:mm` means the signed offset in seconds; nothing else is accepted. -/
def parseTzOffset (cs : List Char) : Option Int :=
  match cs with
  | ['Z'] => some 0
  | ['z'] => some 0
  | c :: rest =>
    if c = '+' ∨ c = '-' then
      match take2Sep ':' rest with
      | some (oh, rest1) =>
        match take2 rest1 with
        | some (om, rest2) =>
          if rest2 = [] ∧ oh ≤ 23 ∧ om ≤ 59 then
            some ((if c = '-' then -1 else 1) * ((oh : Int) * 3600 + (om : Int) * 60))
          else none
        | none => none
      | none => none
    else none
  | [] => none

/-- Parse `hh:mm:ss` followed by a timezone designator, returning the
seconds into the day and the timezone offset in seconds. -/
def parseClock (cs : List Char) : Option (Int × Int) :=
  match take2Sep ':' cs with
  | some (h, cs1) =>
    match take2Sep ':' cs1 with
    | some (mi, cs2) =>
      match take2 cs2 with
      | some (sec, cs3) =>
        if h ≤ 23 ∧ mi ≤ 59 ∧ sec ≤ 59 then
          match parseTzOffset cs3 with
          | some off => some ((h : Int) * 3600 + (mi : Int) * 60 + (sec : Int), off)
          | none => none
        else none
      | none => none
    | none => none
  | none => none

/-- Parse `YYYY-MM-DD` followed by the date/time separator `T`/`t`,
returning the civil date's day count from the epoch. -/
def parseDatePart (cs : List Char) : Option (Int × List Char) :=
  match take4 cs with
  | some (y, cs1) =>
    match expect '-' cs1 with
    | some cs2 =>
      match take2Sep '-' cs2 with
      | some (mo, cs3) =>
        match take2 cs3 with
        | some (d, cs4) =>
          match cs4 with
          | 'T' :: rest =>
            if 1 ≤ mo ∧ mo ≤ 12 ∧ 1 ≤ d ∧ d ≤ 31 then
              some (daysFromCivil (y : Int) mo d, rest)
            else none
          | 't' :: rest =>
            if 1 ≤ mo ∧ mo ≤ 12 ∧ 1 ≤ d ∧ d ≤ 31 then
              some (daysFromCivil (y : Int) mo d, rest)
            else none
          | _ => none
        | none => none
      | none => none
    | none => none
  | none => none

/-- `literal.parse::<DateTime<Utc>>()`: the whole-second RFC 3339 fragment
`YYYY-MM-DDThh:mm:ss` followed by `Z`/`z` or an offset `±hh:mm`.  The result
is the absolute instant: the displayed offset is subtracted, so two literals
with different offsets denoting the same instant parse equal. -/
def parseDateTime (s : String) : Option Int :=
  match parseDatePart s.data with
  | some (days, rest) =>
    match parseClock rest with
    | some (daySeconds, off) => some (days * 86400 + daySeconds - off)
    | none => none
  | none => none

/-! ### The per-operator comparison closures of `src/engine/filter.rs`

Each of the six functions below is the closure passed to
`filter_column_with_literal` by the correspondingly named
`filter_column_*_literal` method: a match on
(declared `ColumnType`, runtime `Type` variant, literal `Value` variant),
whose success arms parse the literal text at the column's exact width with
`.unwrap()` (so an unparsable literal in a matching arm panics) and whose
fall-through arm is the `TypeMismatch` error. -/

/-- The comparison closure of `filter_column_equals_literal`. -/
def eqCompare (schemaType : ColumnType) (eventType : Ty) (literal : Value) : Exc Bool :=
  match schemaType, eventType, literal with
  | .string, .str value, .singleQuotedString lit => .ok (value == lit)
  | .int32, .int32 value, .number lit false => do
    let l ← unwrap (parseI32 lit)
    .ok (value == l)
  | .int64, .int64 value, .number lit false => do
    let l ← unwrap (parseI64 lit)
    .ok (value == l)
  | .float, .float value, .number lit false => do
    let l ← unwrap (parseRatText lit)
    .ok (value == l)
  | .double, .double value, .number lit false => do
    let l ← unwrap (parseRatText lit)
    .ok (value == l)
  | .bool, .bool value, .boolean lit => .ok (value == lit)
  | .dateTime, .dateTime value, .singleQuotedString lit => do
    let l ← unwrap (parseDateTime lit)
    .ok (value == l)
  | st, et, l => .error (.error (.typeMismatch st et l))

/-- The comparison closure of `filter_column_does_not_equal_literal`. -/
def neCompare (schemaType : ColumnType) (eventType : Ty) (literal : Value) : Exc Bool :=
  match schemaType, eventType, literal with
  | .string, .str value, .singleQuotedString lit => .ok (value != lit)
  | .int32, .int32 value, .number lit false => do
    let l ← unwrap (parseI32 lit)
    .ok (value != l)
  | .int64, .int64 value, .number lit false => do
    let l ← unwrap (parseI64 lit)
    .ok (value != l)
  | .float, .float value, .number lit false => do
    let l ← unwrap (parseRatText lit)
    .ok (value != l)
  | .double, .double value, .number lit false => do
    let l ← unwrap (parseRatText lit)
    .ok (value != l)
  | .bool, .bool value, .boolean lit => .ok (value != lit)
  | .dateTime, .dateTime value, .singleQuotedString lit => do
    let l ← unwrap (parseDateTime lit)
    .ok (value != l)
  | st, et, l => .error (.error (.typeMismatch st et l))

/-- The comparison closure of `filter_column_less_than_literal`. -/
def ltCompare (schemaType : ColumnType) (eventType : Ty) (literal : Value) : Exc Bool :=
  match schemaType, eventType, literal with
  | .int32, .int32 value, .number lit false => do
    let l ← unwrap (parseI32 lit)
    .ok (decide (value < l))
  | .int64, .int64 value, .number lit false => do
    let l ← unwrap (parseI64 lit)
    .ok (decide (value < l))
  | .float, .float value, .number lit false => do
    let l ← unwrap (parseRatText lit)
    .ok (decide (value < l))
  | .double, .double value, .number lit false => do
    let l ← unwrap (parseRatText lit)
    .ok (decide (value < l))
  | .dateTime, .dateTime value, .singleQuotedString lit => do
    let l ← unwrap (parseDateTime lit)
    .ok (decide (value < l))
  | .string, .str value, .singleQuotedString lit => .ok (decide (value < lit))
  | st, et, l => .error (.error (.typeMismatch st et l))

/-- The comparison closure of `filter_column_greater_than_literal`. -/
def gtCompare (schemaType : ColumnType) (eventType : Ty) (literal : Value) : Exc Bool :=
  match schemaType, eventType, literal with
  | .int32, .int32 value, .number lit false => do
    let l ← unwrap (parseI32 lit)
    .ok (decide (value > l))
  | .int64, .int64 value, .number lit false => do
    let l ← unwrap (parseI64 lit)
    .ok (decide (value > l))
  | .float, .float value, .number lit false => do
    let l ← unwrap (parseRatText lit)
    .ok (decide (value > l))
  | .double, .double value, .number lit false => do
    let l ← unwrap (parseRatText lit)
    .ok (decide (value > l))
  | .dateTime, .dateTime value, .singleQuotedString lit => do
    let l ← unwrap (parseDateTime lit)
    .ok (decide (value > l))
  | .string, .str value, .singleQuotedString lit => .ok (decide (value > lit))
  | st, et, l => .error (.error (.typeMismatch st et l))

/-- The comparison closure of `filter_column_less_than_or_equal_to_literal`. -/
def leCompare (schemaType : ColumnType) (eventType : Ty) (literal : Value) : Exc Bool :=
  match schemaType, eventType, literal with
  | .int32, .int32 value, .number lit false => do
    let l ← unwrap (parseI32 lit)
    .ok (decide (value ≤ l))
  | .int64, .int64 value, .number lit false => do
    let l ← unwrap (parseI64 lit)
    .ok (decide (value ≤ l))
  | .float, .float value, .number lit false => do
    let l ← unwrap (parseRatText lit)
    .ok (decide (value ≤ l))
  | .double, .double value, .number lit false => do
    let l ← unwrap (parseRatText lit)
    .ok (decide (value ≤ l))
  | .dateTime, .dateTime value, .singleQuotedString lit => do
    let l ← unwrap (parseDateTime lit)
    .ok (decide (value ≤ l))
  | .string, .str value, .singleQuotedString lit => .ok (decide (value ≤ lit))
  | st, et, l => .error (.error (.typeMismatch st et l))

/-- The comparison closure of `filter_column_greater_than_or_equal_to_literal`. -/
def geCompare (schemaType : ColumnType) (eventType : Ty) (literal : Value) : Exc Bool :=
  match schemaType, eventType, literal with
  | .int32, .int32 value, .number lit false => do
    let l ← unwrap (parseI32 lit)
    .ok (decide (value ≥ l))
  | .int64, .int64 value, .number lit false => do
    let l ← unwrap (parseI64 lit)
    .ok (decide (value ≥ l))
  | .float, .float value, .number lit false => do
    let l ← unwrap (parseRatText lit)
    .ok (decide (value ≥ l))
  | .double, .double value, .number lit false => do
    let l ← unwrap (parseRatText lit)
    .ok (decide (value ≥ l))
  | .dateTime, .dateTime value, .singleQuotedString lit => do
    let l ← unwrap (parseDateTime lit)
    .ok (decide (value ≥ l))
  | .string, .str value, .singleQuotedString lit => .ok (decide (value ≥ lit))
  | st, et, l => .error (.error (.typeMismatch st et l))

/-! ### The filter stage (`src/engine/filter.rs`) -/

/-- `TableResult::get_schema_type_for_column`: a linear search over the
schema columns with `eq_ignore_ascii_case`, then `.unwrap()` on the
find result (a panic when no column matches). -/
def getSchemaTypeForColumn (schemaColumns : List SchemaColumn) (column : String) :
    Exc ColumnType :=
  unwrap ((schemaColumns.find? (fun c => eqIgnoreAsciiCase c.name column)).map (·.type))

/-- The index-collecting loop of `TableResult::filter_column_with_literal`:
for each event (in order, with its index), look the column up in the event's
value map with `.unwrap()` (a panic when absent), run the comparison closure,
and record the index when it keeps the event. -/
def survivingIndicesFrom (cmp : ColumnType → Ty → Value → Exc Bool)
    (schemaType : ColumnType) (column : String) (literal : Value) :
    Nat → List Event → Exc (List Nat)
  | _, [] => .ok []
  | i, ev :: rest => do
    let eventType ← unwrap (mapGet ev.values column)
    let keep ← cmp schemaType eventType literal
    let restIdx ← survivingIndicesFrom cmp schemaType column literal (i + 1) rest
    .ok (if keep then i :: restIdx else restIdx)

/-- `TableResult::filter_column_with_literal`: resolve the declared column
type, then collect the surviving indices. -/
def filterColumnWithLiteral (schemaColumns : List SchemaColumn) (events : List Event)
    (column : String) (literal : Value) (cmp : ColumnType → Ty → Value → Exc Bool) :
    Exc (List Nat) := do
  let schemaType ← getSchemaTypeForColumn schemaColumns column
  survivingIndicesFrom cmp schemaType column literal 0 events

/-- `TableResult::route_filter_column_with_literal`: dispatch `column OP
literal` on the operator; an unsupported operator is `InvalidQuery` carrying
`self.statement.unwrap()` (a panic when the statement is absent). -/
def routeFilterColumnWithLiteral (t : TableResult) (column : String) (literal : Value)
    (op : BinaryOperator) : Exc (List Nat) :=
  match op with
  | .eq => filterColumnWithLiteral t.schemaColumns t.events column literal eqCompare
  | .notEq => filterColumnWithLiteral t.schemaColumns t.events column literal neCompare
  | .gt => filterColumnWithLiteral t.schemaColumns t.events column literal gtCompare
  | .lt => filterColumnWithLiteral t.schemaColumns t.events column literal ltCompare
  | .gtEq => filterColumnWithLiteral t.schemaColumns t.events column literal geCompare
  | .ltEq => filterColumnWithLiteral t.schemaColumns t.events column literal leCompare
  | .other =>
    match t.statement with
    | some s => .error (.error (.invalidQuery s))
    | none => .error .panicked

/-- `TableResult::route_filter_literal_with_column`: dispatch `literal OP
column` by algebraically flipping the ordering operators onto the
column-first evaluators. -/
def routeFilterLiteralWithColumn (t : TableResult) (literal : Value) (column : String)
    (op : BinaryOperator) : Exc (List Nat) :=
  match op with
  | .eq => filterColumnWithLiteral t.schemaColumns t.events column literal eqCompare
  | .notEq => filterColumnWithLiteral t.schemaColumns t.events column literal neCompare
  | .gt => filterColumnWithLiteral t.schemaColumns t.events column literal ltCompare
  | .lt => filterColumnWithLiteral t.schemaColumns t.events column literal gtCompare
  | .gtEq => filterColumnWithLiteral t.schemaColumns t.events column literal leCompare
  | .ltEq => filterColumnWithLiteral t.schemaColumns t.events column literal geCompare
  | .other =>
    match t.statement with
    | some s => .error (.error (.invalidQuery s))
    | none => .error .panicked

/-- `TableResult::filter_binary_op`: one operand must be a column identifier
and the other a literal value, in either order. -/
def filterBinaryOp (t : TableResult) (left : Expr) (op : BinaryOperator) (right : Expr)
    (stmt : Statement) : Exc (List Nat) :=
  match left, right with
  | .identifier column, .value literal => routeFilterColumnWithLiteral t column literal op
  | .value literal, .identifier column => routeFilterLiteralWithColumn t literal column op
  | _, _ => .error (.error (.invalidQuery stmt))

/-- `TableResult::process_filter`: only a binary comparison is supported. -/
def processFilter (t : TableResult) (e : Expr) (stmt : Statement) : Exc (List Nat) :=
  match e with
  | .binaryOp left op right => filterBinaryOp t left op right stmt
  | _ => .error (.error (.invalidQuery stmt))

/-- The materialization loop of `TableResult::filter`: keep exactly the
events whose index is in the surviving set, in their original order. -/
def selectByIndexFrom (idx : List Nat) : Nat → List Event → List Event
  | _, [] => []
  | i, e :: rest =>
    if idx.contains i then e :: selectByIndexFrom idx (i + 1) rest
    else selectByIndexFrom idx (i + 1) rest

/-- The `indexes` computation of `TableResult::filter`: `none` when there is
no WHERE clause, the surviving index set otherwise; a non-query statement is
`InvalidQuery`. -/
def filterIndexes (t : TableResult) (stmt : Statement) : Exc (Option (List Nat)) :=
  match stmt with
  | .query q =>
    match q.body with
    | .select sel =>
      match sel.selection with
      | none => .ok none
      | some expr => (processFilter t expr stmt).map some
    | .otherBody => .error (.error (.invalidQuery stmt))
  | .otherStatement => .error (.error (.invalidQuery stmt))

/-- `TableResult::filter` from `src/engine/filter.rs`: compute the surviving
index set for the WHERE clause (absent WHERE keeps everything), then
materialize by keeping exactly the surviving indices in order. -/
def TableResult.filter (t : TableResult) : Exc TableResult :=
  match t.statement with
  | none => .ok t
  | some stmt =>
    match filterIndexes t stmt with
    | .error f => .error f
    | .ok none => .ok t
    | .ok (some idx) => .ok { t with events := selectByIndexFrom idx 0 t.events }

/-! ### The project, offset and limit stages (`src/engine.rs`) -/

/-- Outcome of running the projection item list over one event: either the
re-keyed value map together with the output column names collected for the
first event, or the early `return Ok(self)` triggered by a wildcard item
(which leaves that event holding its — possibly partially drained — map). -/
inductive ProjOutcome
  | proceed (values : List (String × Ty)) (cols : List String)
  | earlyReturn (values : List (String × Ty))
  deriving DecidableEq, Repr

/-- The inner projection-item loop of `TableResult::project` for one event:
a plain identifier `.remove()`s the named value from the event's map
(`.unwrap()` panics when it is absent, e.g. for a duplicated source column)
and re-inserts it under its own name, an aliased identifier re-inserts it
under the alias, a wildcard returns the whole result early, and anything
else is `InvalidQuery`.  Output column names are only collected while the
output column list is still unset (first event). -/
def projectItems (stmt : Statement) (columnsUnset : Bool) :
    List SelectItem → List (String × Ty) → List (String × Ty) → List String →
    Exc ProjOutcome
  | [], _, projected, cols => .ok (.proceed projected cols)
  | .unnamedExpr (.identifier name) :: rest, remaining, projected, cols =>
    match mapRemove remaining name with
    | (some v, remaining1) =>
      projectItems stmt columnsUnset rest remaining1 (mapInsert projected name v)
        (if columnsUnset then cols ++ [name] else cols)
    | (none, _) => .error .panicked
  | .unnamedExpr _ :: _, _, _, _ => .error (.error (.invalidQuery stmt))
  | .wildcard :: _, remaining, _, _ => .ok (.earlyReturn remaining)
  | .exprWithAlias (.identifier name) a :: rest, remaining, projected, cols =>
    match mapRemove remaining name with
    | (some v, remaining1) =>
      projectItems stmt columnsUnset rest remaining1 (mapInsert projected a v)
        (if columnsUnset then cols ++ [a] else cols)
    | (none, _) => .error .panicked
  | .exprWithAlias _ _ :: _, _, _, _ => .error (.error (.invalidQuery stmt))
  | .otherItem :: _, _, _, _ => .error (.error (.invalidQuery stmt))

/-- The outer event loop of `TableResult::project`: each event's map is
replaced by its projection; the output column list is captured from the
first event.  A wildcard early-returns with the events processed so far,
the current event as the item loop left it, and the rest untouched; the
`Bool` records whether that early return happened (in which case the output
column list is never installed). -/
def projectEvents (stmt : Statement) (items : List SelectItem) :
    List Event → List Event → Option (List String) →
    Exc (List Event × Option (List String) × Bool)
  | processed, [], cols => .ok (processed, cols, false)
  | processed, ev :: rest, cols =>
    match projectItems stmt cols.isNone items ev.values [] [] with
    | .ok (.earlyReturn vals) =>
      .ok (processed ++ ({ ev with values := vals } :: rest), cols, true)
    | .ok (.proceed vals innerCols) =>
      projectEvents stmt items (processed ++ [{ ev with values := vals }]) rest
        (if cols.isNone then some innerCols else cols)
    | .error f => .error f

/-- `TableResult::project` from `src/engine.rs`: re-key every event to the
SELECT list and install the collected output column list (left in place on
a wildcard early return or when there were no events). -/
def TableResult.project (t : TableResult) : Exc TableResult :=
  match t.statement with
  | none => .ok t
  | some stmt =>
    match stmt with
    | .query q =>
      match q.body with
      | .select sel =>
        match projectEvents stmt sel.projection [] t.events none with
        | .ok (events, cols, early) =>
          if early then .ok { t with events := events }
          else
            match cols with
            | some cs => .ok { t with events := events, columns := cs }
            | none => .ok { t with events := events }
        | .error f => .error f
      | .otherBody => .error (.error (.invalidQuery stmt))
    | .otherStatement => .ok t

/-- `TableResult::offset` from `src/engine.rs`: an `OFFSET` clause whose
value is a numeric literal is parsed with `usize::from_str(..).unwrap()`
(a panic when the text is not an integer in `usize` range), then either
clears the events (offset beyond the count) or drops the first `offset`
of them; any other clause value is `InvalidQuery`. -/
def TableResult.offset (t : TableResult) : Exc TableResult :=
  match t.statement with
  | none => .ok t
  | some stmt =>
    match stmt with
    | .query q =>
      match q.offset with
      | some off =>
        match off.value with
        | .value (.number text _) => do
          let n ← unwrap (parseUsize text)
          if t.events.length < n then .ok { t with events := [] }
          else .ok { t with events := t.events.drop n }
        | _ => .error (.error (.invalidQuery stmt))
      | none => .ok t
    | .otherStatement => .ok t

/-- `TableResult::limit` from `src/engine.rs`: a `LIMIT` clause whose value
is a numeric literal is parsed with `usize::from_str(..).unwrap()` (a panic
when the text is not an integer in `usize` range), then the events are cut
to the first `limit.min(len)`; any other clause value is `InvalidQuery`. -/
def TableResult.limit (t : TableResult) : Exc TableResult :=
  match t.statement with
  | none => .ok t
  | some stmt =>
    match stmt with
    | .query q =>
      match q.limit with
      | some (.value (.number text _)) => do
        let n ← unwrap (parseUsize text)
        .ok { t with events := t.events.take (min n t.events.length) }
      | some _ => .error (.error (.invalidQuery stmt))
      | none => .ok t
    | .otherStatement => .ok t

/-- `TableResult::process` from `src/engine.rs`: the fixed pipeline
`self.filter()?.project()?.offset()?.limit()`. -/
def TableResult.process (t : TableResult) : Exc TableResult := do
  let t1 ← t.filter
  let t2 ← t1.project
  let t3 ← t2.offset
  t3.limit

/-- `Engine::new` + `Engine::execute`: the initial `TableResult` has the
schema's column names as its column list (the extraction of events from
text is upstream of the engine; the event list is taken as given). -/
def mkTableResult (schemaColumns : List SchemaColumn) (events : List Event)
    (statement : Option Statement) : TableResult :=
  { columns := schemaColumns.map (·.name)
    events := events
    schemaColumns := schemaColumns
    statement := statement }

/-- A single-`SELECT` statement assembled from its clauses. -/
def selectStatement (items : List SelectItem) (selection : Option Expr)
    (ob : List OrderByExpr) (lim : Option Expr) (off : Option OffsetClause) : Statement :=
  .query { body := .select { projection := items, selection := selection }
           orderBy := ob, limit := lim, offset := off }

/-! ### Concrete fixtures used by counterexamples and witnesses -/

/-- A two-string-column schema, as in the `engine.rs` tests. -/
def twoColSchema : List SchemaColumn :=
  [⟨"col1", .string, false⟩, ⟨"col2", .string, false⟩]

/-- One record over `twoColSchema`. -/
def oneRow : List Event :=
  [⟨[("col1", Ty.str "one"), ("col2", Ty.str "two")], none⟩]

/-- Three records over `twoColSchema`, as in the `engine.rs` LIMIT/OFFSET
tests. -/
def threeRows : List Event :=
  [⟨[("col1", Ty.str "1"), ("col2", Ty.str "one")], none⟩,
   ⟨[("col1", Ty.str "2"), ("col2", Ty.str "two")], none⟩,
   ⟨[("col1", Ty.str "3"), ("col2", Ty.str "three")], none⟩]

/-- The `index`/`value` schema of the spec's ORDER BY scenario. -/
def orderSchema : List SchemaColumn :=
  [⟨"index", .int32, false⟩, ⟨"value", .int32, false⟩]

/-- The rows `(1,3),(2,2),(3,1)` of the spec's ORDER BY scenario. -/
def orderRows : List Event :=
  [⟨[("index", Ty.int32 1), ("value", Ty.int32 3)], none⟩,
   ⟨[("index", Ty.int32 2), ("value", Ty.int32 2)], none⟩,
   ⟨[("index", Ty.int32 3), ("value", Ty.int32 1)], none⟩]

/-- The rows of the ORDER BY scenario as `value asc` would order them. -/
def orderRowsSorted : List Event :=
  [⟨[("index", Ty.int32 3), ("value", Ty.int32 1)], none⟩,
   ⟨[("index", Ty.int32 2), ("value", Ty.int32 2)], none⟩,
   ⟨[("index", Ty.int32 1), ("value", Ty.int32 3)], none⟩]

/-- A one-`i32`-column schema. -/
def intSchema : List SchemaColumn := [⟨"n", .int32, false⟩]

/-- One record over `intSchema`. -/
def intRow : List Event := [⟨[("n", Ty.int32 1)], none⟩]

/-- The algebraic operand flip named by the spec: `literal OP column`
behaves as `column OP' literal`, with `=`/`!=` self-dual and the order
comparisons mirrored. -/
def flipOp : BinaryOperator → BinaryOperator
  | .eq => .eq
  | .notEq => .notEq
  | .lt => .gt
  | .gt => .lt
  | .ltEq => .gtEq
  | .gtEq => .ltEq
  | .other => .other

/-- The (ColumnType, runtime variant, literal variant) triples accepted by
the success arms of the `=`/`!=` comparison closures (the `Number` flag must
be `false` there, exactly as in the source patterns). -/
def eqKindsAgree : ColumnType → Ty → Value → Bool
  | .string, .str _, .singleQuotedString _ => true
  | .int32, .int32 _, .number _ false => true
  | .int64, .int64 _, .number _ false => true
  | .float, .float _, .number _ false => true
  | .double, .double _, .number _ false => true
  | .bool, .bool _, .boolean _ => true
  | .dateTime, .dateTime _, .singleQuotedString _ => true
  | _, _, _ => false

/-- The triples accepted by the success arms of the four order-comparison
closures (as `eqKindsAgree` but with no boolean arm). -/
def ordKindsAgree : ColumnType → Ty → Value → Bool
  | .int32, .int32 _, .number _ false => true
  | .int64, .int64 _, .number _ false => true
  | .float, .float _, .number _ false => true
  | .double, .double _, .number _ false => true
  | .dateTime, .dateTime _, .singleQuotedString _ => true
  | .string, .str _, .singleQuotedString _ => true
  | _, _, _ => false

/-- Replace the (never-read) `ORDER BY` list of a statement. -/
def setOrderByStmt (s : Statement) (ob : List OrderByExpr) : Statement :=
  match s with
  | .query q => .query { q with orderBy := ob }
  | .otherStatement => .otherStatement

/-- Replace the `ORDER BY` list carried inside a table's statement. -/
def setOrderBy (t : TableResult) (ob : List OrderByExpr) : TableResult :=
  { t with statement := t.statement.map (fun s => setOrderByStmt s ob) }

/-- Stage outcomes agree up to the `ORDER BY` list of the carried statement:
equal success values modulo that field, and failures in lockstep. -/
def SimOrd (ob : List OrderByExpr) : Exc TableResult → Exc TableResult → Prop
  | .ok a, .ok b => a = setOrderBy b ob
  | .error _, .error _ => True
  | _, _ => False

/-- Plain outcome agreement: equal successes, failures in lockstep. -/
def SimVal {α : Type} : Exc α → Exc α → Prop
  | .ok a, .ok b => a = b
  | .error _, .error _ => True
  | _, _ => False

/-- How one output record of the Project stage arises from the input record
at the same position: its extra text is untouched, and its value map either
is the one the projection-item loop produced for that record's values
(normal completion, or the partially drained map of a wildcard early
return), or passed through unchanged (the records after an early return).
Pairing outputs to inputs positionally with this relation says Project maps
each record in place — no reordering. -/
def projStep (stmt : Statement) (items : List SelectItem) (b a : Event) : Prop :=
  b.extraText = a.extraText ∧
  ((∃ (cu : Bool) (cols2 : List String),
      projectItems stmt cu items a.values [] [] = .ok (.proceed b.values cols2)) ∨
   (∃ cu : Bool, projectItems stmt cu items a.values [] [] = .ok (.earlyReturn b.values)) ∨
   b.values = a.values)

/-! ### Claim theorems -/

theorem exc_bind_ok {α β : Type} (a : α) (f : α → Exc β) :
    (Except.ok a >>= f : Exc β) = f a := rfl

theorem exc_bind_error {α β : Type} (e : Fault) (f : α → Exc β) :
    (Except.error e >>= f : Exc β) = Except.error e := rfl



/-- **C9.** For a WHERE comparison naming a column with no
ASCII-case-insensitive match among the schema columns, the filter stage
panics (the `.unwrap()` in `get_schema_type_for_column`) instead of
returning a typed error; and when the identifier matches a schema column
only case-insensitively, the per-record value lookup
(`event.values.get(column).unwrap()`) is case-sensitive, so filtering a
non-empty record set panics there. -/
theorem filter_bad_column_lookup_panics :
    TableResult.filter (mkTableResult intSchema intRow
        (some (selectStatement [.wildcard]
          (some (.binaryOp (.identifier "b") .eq (.value (.number "1" false))))
          [] none none))) = .error .panicked ∧
    TableResult.filter (mkTableResult [⟨"Col1", .int32, false⟩]
        [⟨[("Col1", Ty.int32 1)], none⟩]
        (some (selectStatement [.wildcard]
          (some (.binaryOp (.identifier "col1") .eq (.value (.number "1" false))))
          [] none none))) = .error .panicked := by
  exact ⟨by decide, by decide⟩

/-- **C10.** Projecting a non-empty record set with a SELECT list that names
the same source column twice panics (the second `HashMap::remove(..).unwrap()`
finds nothing), while two distinct source columns projected under one alias
silently overwrite: the output record keeps only the later value, under the
shared alias, and the output column list repeats the alias. -/
theorem project_duplicate_column_panics_duplicate_alias_overwrites :
    TableResult.project (mkTableResult twoColSchema oneRow
        (some (selectStatement
          [.unnamedExpr (.identifier "col1"), .unnamedExpr (.identifier "col1")]
          none [] none none))) = .error .panicked ∧
    TableResult.project (mkTableResult twoColSchema oneRow
        (some (selectStatement
          [.exprWithAlias (.identifier "col1") "a", .exprWithAlias (.identifier "col2") "a"]
          none [] none none))) =
      .ok { columns := ["a", "a"]
            events := [⟨[("a", Ty.str "two")], none⟩]
            schemaColumns := twoColSchema
            statement := some (selectStatement
              [.exprWithAlias (.identifier "col1") "a", .exprWithAlias (.identifier "col2") "a"]
              none [] none none) } := by
  exact ⟨by decide, by decide⟩

/-- **C5.** DateTime equality against a string literal compares absolute
instants: the literal `2022-01-02T01:00:00+01:00` (a non-UTC display offset)
matches exactly the stored values equal to the instant
`2022-01-02T00:00:00Z`, for every stored value; and in general the
comparison of a stored instant with a literal depends only on the instant
the literal parses to. -/
theorem datetime_comparison_is_instant_based :
    (∀ i : Int,
        eqCompare .dateTime (.dateTime i)
            (.singleQuotedString "2022-01-02T01:00:00+01:00") =
          .ok (i == utcInstant 2022 1 2 0 0 0)) ∧
    parseDateTime "2022-01-02T00:00:00Z" = some (utcInstant 2022 1 2 0 0 0) ∧
    (∀ (i j : Int) (l : String), parseDateTime l = some j →
        eqCompare .dateTime (.dateTime i) (.singleQuotedString l) = .ok (i == j)) := by
  have key : ∀ (i j : Int) (l : String), parseDateTime l = some j →
      eqCompare .dateTime (.dateTime i) (.singleQuotedString l) = .ok (i == j) := by
    intro i j l h
    simp only [eqCompare, h, unwrap]
    rfl
  exact ⟨fun i => key i (utcInstant 2022 1 2 0 0 0) _ (by decide), by decide, key⟩

/-- **C6.** Projecting with the wildcard SELECT list is the identity on the
whole result (columns and records); projecting an empty record set (with any
SELECT list) also leaves the result unchanged, so its column list stays as
constructed; and the engine constructs that column list as the full schema
column-name list. -/
theorem project_wildcard_identity_and_empty_default :
    (∀ (t : TableResult) (q : QueryAst) (sel : SelectBody),
        t.statement = some (.query q) → q.body = .select sel →
        sel.projection = [.wildcard] → t.project = .ok t) ∧
    (∀ (t : TableResult) (q : QueryAst) (sel : SelectBody),
        t.statement = some (.query q) → q.body = .select sel →
        t.events = [] → t.project = .ok t) ∧
    (∀ (sc : List SchemaColumn) (ev : List Event) (st : Option Statement),
        (mkTableResult sc ev st).columns = sc.map (fun c => c.name)) := by
  refine ⟨?_, ?_, fun _ _ _ => rfl⟩
  · rintro ⟨cols, events, sc, stmt⟩ q ⟨proj, selc⟩ h1 h2 h3
    simp only at h1 h2 h3
    subst h1
    obtain ⟨body, ob, lim, off⟩ := q
    simp only at h2
    subst h2
    subst h3
    cases events <;> rfl
  · rintro ⟨cols, events, sc, stmt⟩ q ⟨proj, selc⟩ h1 h2 h3
    simp only at h1 h2 h3
    subst h1
    obtain ⟨body, ob, lim, off⟩ := q
    simp only at h2
    subst h2
    subst h3
    rfl

/-- Witness for `datetime_comparison_is_instant_based`: the stored UTC value
`2022-01-02T00:00:00Z` compares equal to itself as a literal. -/
theorem datetime_comparison_is_instant_based_witness :
    eqCompare .dateTime (.dateTime (utcInstant 2022 1 2 0 0 0))
        (.singleQuotedString "2022-01-02T00:00:00Z") = .ok true := by
  have h := datetime_comparison_is_instant_based.2.2 (utcInstant 2022 1 2 0 0 0)
      (utcInstant 2022 1 2 0 0 0) "2022-01-02T00:00:00Z" (by decide)
  simpa using h

/-- Witness for `project_wildcard_identity_and_empty_default`: `SELECT *`
over the three sample rows returns the result unchanged. -/
theorem project_wildcard_identity_and_empty_default_witness :
    TableResult.project (mkTableResult twoColSchema threeRows
        (some (selectStatement [.wildcard] none [] none none))) =
      .ok (mkTableResult twoColSchema threeRows
        (some (selectStatement [.wildcard] none [] none none))) :=
  project_wildcard_identity_and_empty_default.1
    (mkTableResult twoColSchema threeRows
      (some (selectStatement [.wildcard] none [] none none)))
    { body := .select { projection := [.wildcard], selection := none }
      orderBy := [], limit := none, offset := none }
    { projection := [.wildcard], selection := none } rfl rfl rfl

/-- With a numeric `OFFSET` literal that parses to `n`, the offset stage
always succeeds and its two branches coincide on dropping the first `n`
events. -/
theorem offset_numeric_drops (t : TableResult) (q : QueryAst) (text : String) (flag : Bool)
    (n : Nat) (h1 : t.statement = some (.query q))
    (h2 : q.offset = some { value := .value (.number text flag) })
    (h3 : parseUsize text = some n) :
    t.offset = .ok { t with events := t.events.drop n } := by
  obtain ⟨cols, events, sc, stmt⟩ := t
  obtain ⟨body, ob, lim, off⟩ := q
  simp only at h1 h2
  subst h1
  subst h2
  simp only [TableResult.offset, h3, unwrap]
  show (if events.length < n then _ else _) = _
  split
  · have hnil : events.drop n = [] :=
      List.drop_eq_nil_of_le (Nat.le_of_lt (by assumption))
    rw [hnil]
  · rfl

/-- With a numeric `LIMIT` literal that parses to `n`, the limit stage
always succeeds, keeping the first `min n len = n`-clamped prefix. -/
theorem limit_numeric_takes (t : TableResult) (q : QueryAst) (text : String) (flag : Bool)
    (n : Nat) (h1 : t.statement = some (.query q))
    (h2 : q.limit = some (.value (.number text flag)))
    (h3 : parseUsize text = some n) :
    t.limit = .ok { t with events := t.events.take n } := by
  obtain ⟨cols, events, sc, stmt⟩ := t
  obtain ⟨body, ob, lim, off⟩ := q
  simp only at h1 h2
  subst h1
  subst h2
  simp only [TableResult.limit, h3, unwrap]
  show Except.ok _ = Except.ok _
  have htk : events.take (min n events.length) = events.take n := by
    rw [← List.take_take n events.length events, List.take_length]
  rw [htk]

/-- **C2 (counterexample).** `OFFSET 18446744073709551616` (= `2^64`, one
past the 64-bit `usize` range) panics at `usize::from_str(..).unwrap()`
instead of succeeding, so "never errors however large N is" fails. -/
theorem offset_huge_literal_panics :
    TableResult.offset (mkTableResult twoColSchema threeRows
        (some (selectStatement [.wildcard] none [] none
          (some { value := .value (.number "18446744073709551616" false) })))) =
      .error .panicked := by decide

/-- **C2 (amended).** For `N` within the 64-bit `usize` range: `OFFSET N`
drops the first `N` records, leaving `K - N` of them (`max(0, K-N)` as a
truncated subtraction, never an error); `LIMIT N` keeps the first
`min(N, K)`; and `OFFSET M` composed with `LIMIT N` yields exactly the
clamped slice `records[M .. M+N]`, the surviving records unchanged and in
their original relative order. -/
theorem offset_limit_slicing :
    (∀ (t : TableResult) (q : QueryAst) (text : String) (flag : Bool) (n : Nat),
        t.statement = some (.query q) →
        q.offset = some { value := .value (.number text flag) } →
        parseUsize text = some n →
        t.offset = .ok { t with events := t.events.drop n } ∧
          (t.events.drop n).length = t.events.length - n) ∧
    (∀ (t : TableResult) (q : QueryAst) (text : String) (flag : Bool) (n : Nat),
        t.statement = some (.query q) →
        q.limit = some (.value (.number text flag)) →
        parseUsize text = some n →
        t.limit = .ok { t with events := t.events.take n } ∧
          (t.events.take n).length = min n t.events.length) ∧
    (∀ (t : TableResult) (q : QueryAst) (otext ltext : String) (oflag lflag : Bool)
        (m n : Nat),
        t.statement = some (.query q) →
        q.offset = some { value := .value (.number otext oflag) } →
        q.limit = some (.value (.number ltext lflag)) →
        parseUsize otext = some m → parseUsize ltext = some n →
        (t.offset >>= TableResult.limit) =
          .ok { t with events := (t.events.drop m).take n }) := by
  refine ⟨fun t q text flag n h1 h2 h3 =>
      ⟨offset_numeric_drops t q text flag n h1 h2 h3, List.length_drop n t.events⟩,
    fun t q text flag n h1 h2 h3 =>
      ⟨limit_numeric_takes t q text flag n h1 h2 h3, List.length_take n t.events⟩,
    ?_⟩
  intro t q otext ltext oflag lflag m n h1 ho hl hpo hpl
  rw [offset_numeric_drops t q otext oflag m h1 ho hpo]
  show TableResult.limit _ = _
  exact limit_numeric_takes { t with events := t.events.drop m } q ltext lflag n
    (by simpa using h1) hl hpl

/-- Witness for `offset_limit_slicing`: `LIMIT 2 OFFSET 1` on the three
sample rows keeps rows 2 and 3. -/
theorem offset_limit_slicing_witness :
    ((mkTableResult twoColSchema threeRows
          (some (selectStatement [.wildcard] none []
            (some (.value (.number "2" false)))
            (some { value := .value (.number "1" false) })))).offset >>=
        TableResult.limit) =
      .ok { mkTableResult twoColSchema threeRows
          (some (selectStatement [.wildcard] none []
            (some (.value (.number "2" false)))
            (some { value := .value (.number "1" false) }))) with
        events := (threeRows.drop 1).take 2 } :=
  offset_limit_slicing.2.2
    (mkTableResult twoColSchema threeRows
      (some (selectStatement [.wildcard] none []
        (some (.value (.number "2" false)))
        (some { value := .value (.number "1" false) }))))
    { body := .select { projection := [.wildcard], selection := none }
      orderBy := [], limit := some (.value (.number "2" false))
      offset := some { value := .value (.number "1" false) } }
    "1" "2" false false 1 2 rfl rfl rfl (by decide) (by decide)

/-- **C7 (counterexample).** `LIMIT 1.5` (a decimal numeric literal) makes
execution panic at `usize::from_str(..).unwrap()` rather than fail with
`InvalidQuery`. -/
theorem limit_decimal_literal_panics :
    TableResult.process (mkTableResult twoColSchema threeRows
        (some (selectStatement [.wildcard] none []
          (some (.value (.number "1.5" false))) none))) =
      .error .panicked := by decide

/-- **C7 (amended).** A `LIMIT`/`OFFSET` operand that is not a numeric
literal fails with `InvalidQuery` naming the offending statement; a numeric
literal whose text does not parse as a 64-bit `usize` (decimal text such as
`1.5`, or an integer at least `2^64`) panics at the parse `unwrap` instead. -/
theorem limit_offset_literal_validation :
    (∀ (t : TableResult) (q : QueryAst) (e : Expr),
        t.statement = some (.query q) → q.limit = some e →
        (∀ (text : String) (flag : Bool), e ≠ .value (.number text flag)) →
        t.limit = .error (.error (.invalidQuery (.query q)))) ∧
    (∀ (t : TableResult) (q : QueryAst) (off : OffsetClause),
        t.statement = some (.query q) → q.offset = some off →
        (∀ (text : String) (flag : Bool), off.value ≠ .value (.number text flag)) →
        t.offset = .error (.error (.invalidQuery (.query q)))) ∧
    (∀ (t : TableResult) (q : QueryAst) (text : String) (flag : Bool),
        t.statement = some (.query q) →
        q.limit = some (.value (.number text flag)) →
        parseUsize text = none → t.limit = .error .panicked) ∧
    (∀ (t : TableResult) (q : QueryAst) (text : String) (flag : Bool),
        t.statement = some (.query q) →
        q.offset = some { value := .value (.number text flag) } →
        parseUsize text = none → t.offset = .error .panicked) := by
  refine ⟨?_, ?_, ?_, ?_⟩
  · rintro ⟨cols, events, sc, stmt⟩ ⟨body, ob, lim, off⟩ e h1 h2 hne
    simp only at h1 h2
    subst h1
    subst h2
    cases e with
    | value v =>
      cases v with
      | number text flag => exact absurd rfl (hne text flag)
      | singleQuotedString s => rfl
      | boolean b => rfl
    | identifier name => rfl
    | binaryOp l op r => rfl
    | otherExpr => rfl
  · rintro ⟨cols, events, sc, stmt⟩ ⟨body, ob, lim, off⟩ ⟨v⟩ h1 h2 hne
    simp only at h1 h2
    subst h1
    subst h2
    cases v with
    | value w =>
      cases w with
      | number text flag => exact absurd rfl (hne text flag)
      | singleQuotedString s => rfl
      | boolean b => rfl
    | identifier name => rfl
    | binaryOp l op r => rfl
    | otherExpr => rfl
  · rintro ⟨cols, events, sc, stmt⟩ ⟨body, ob, lim, off⟩ text flag h1 h2 h3
    simp only at h1 h2
    subst h1
    subst h2
    simp only [TableResult.limit, h3, unwrap]
    rfl
  · rintro ⟨cols, events, sc, stmt⟩ ⟨body, ob, lim, off⟩ text flag h1 h2 h3
    simp only at h1 h2
    subst h1
    subst h2
    simp only [TableResult.offset, h3, unwrap]
    rfl

/-- Witness for `limit_offset_literal_validation`: `LIMIT 'x'` is
`InvalidQuery` on the sample table. -/
theorem limit_offset_literal_validation_witness :
    TableResult.limit (mkTableResult twoColSchema threeRows
        (some (selectStatement [.wildcard] none []
          (some (.value (.singleQuotedString "x"))) none))) =
      .error (.error (.invalidQuery (selectStatement [.wildcard] none []
        (some (.value (.singleQuotedString "x"))) none))) :=
  limit_offset_literal_validation.1
    (mkTableResult twoColSchema threeRows
      (some (selectStatement [.wildcard] none []
        (some (.value (.singleQuotedString "x"))) none)))
    { body := .select { projection := [.wildcard], selection := none }
      orderBy := [], limit := some (.value (.singleQuotedString "x")), offset := none }
    (.value (.singleQuotedString "x")) rfl rfl (by intro text flag h; cases h)

/-- The materialization loop keeps a subsequence: surviving events appear
unchanged and in their original relative order. -/
theorem selectByIndexFrom_sublist (idx : List Nat) :
    ∀ (i : Nat) (l : List Event), List.Sublist (selectByIndexFrom idx i l) l := by
  intro i l
  induction l generalizing i with
  | nil => simp [selectByIndexFrom]
  | cons e rest ih =>
    simp only [selectByIndexFrom]
    split
    · exact (ih (i + 1)).cons₂ e
    · exact (ih (i + 1)).cons e

/-- The projection event loop maps events one to one: the output has one
event per input event (plus whatever was already accumulated). -/
theorem projectEvents_length (stmt : Statement) (items : List SelectItem) :
    ∀ (evs processed : List Event) (cols : Option (List String))
      (out : List Event) (c : Option (List String)) (b : Bool),
      projectEvents stmt items processed evs cols = .ok (out, c, b) →
      out.length = processed.length + evs.length := by
  intro evs
  induction evs with
  | nil =>
    intro processed cols out c b h
    simp only [projectEvents, Except.ok.injEq, Prod.mk.injEq] at h
    obtain ⟨h1, h2, h3⟩ := h
    subst h1
    simp
  | cons ev rest ih =>
    intro processed cols out c b h
    simp only [projectEvents] at h
    split at h
    · simp only [Except.ok.injEq, Prod.mk.injEq] at h
      obtain ⟨h1, h2, h3⟩ := h
      subst h1
      simp only [List.length_append, List.length_cons]
    · have hl := ih _ _ out c b h
      simp only [List.length_append, List.length_cons, List.length_nil] at hl
      simp only [List.length_cons]
      omega
    · cases h

/-- A positional pairing of any list with itself under a reflexive
relation. -/
theorem forall2_of_refl {R : Event → Event → Prop} (hR : ∀ a, R a a) :
    ∀ l : List Event, List.Forall₂ R l l := by
  intro l
  induction l with
  | nil => exact List.Forall₂.nil
  | cons a l ih => exact List.Forall₂.cons (hR a) ih

/-- The projection event loop transforms each event in place: beyond the
already-accumulated prefix, the i-th output event is derived from the i-th
remaining input event by the projection-item loop (`projStep`), so relative
order is preserved. -/
theorem projectEvents_forall2 (stmt : Statement) (items : List SelectItem) :
    ∀ (evs processed : List Event) (cols : Option (List String))
      (out : List Event) (c : Option (List String)) (b : Bool),
      projectEvents stmt items processed evs cols = .ok (out, c, b) →
      ∃ rest2, out = processed ++ rest2 ∧
        List.Forall₂ (projStep stmt items) rest2 evs := by
  intro evs
  induction evs with
  | nil =>
    intro processed cols out c b h
    simp only [projectEvents, Except.ok.injEq, Prod.mk.injEq] at h
    obtain ⟨h1, h2, h3⟩ := h
    subst h1
    exact ⟨[], by simp, List.Forall₂.nil⟩
  | cons ev rest ih =>
    intro processed cols out c b h
    simp only [projectEvents] at h
    split at h
    · rename_i vals hpi
      simp only [Except.ok.injEq, Prod.mk.injEq] at h
      obtain ⟨h1, h2, h3⟩ := h
      subst h1
      refine ⟨{ ev with values := vals } :: rest, rfl, ?_⟩
      exact List.Forall₂.cons ⟨rfl, Or.inr (Or.inl ⟨cols.isNone, hpi⟩)⟩
        (forall2_of_refl (fun a => ⟨rfl, Or.inr (Or.inr rfl)⟩) rest)
    · rename_i vals innerCols hpi
      obtain ⟨rest2, hout, hfa⟩ := ih (processed ++ [{ ev with values := vals }]) _ out c b h
      refine ⟨{ ev with values := vals } :: rest2, ?_, ?_⟩
      · simpa [List.append_assoc, List.singleton_append] using hout
      · exact List.Forall₂.cons ⟨rfl, Or.inl ⟨cols.isNone, innerCols, hpi⟩⟩ hfa
    · cases h

/-- **C8.** On success, Filter, Offset and Limit each return a subsequence
of the incoming events (hence with no greater a count, the surviving records
unchanged and in their original relative order) and leave the column list
untouched; Project keeps the event count and the relative order of the
records — the i-th output record is the i-th input record with its extra
text untouched and its value map re-keyed in place by the projection-item
loop (`projStep`), never a permutation; and no stage changes the schema.
There is no reordering stage anywhere in the pipeline. -/
theorem pipeline_stage_invariants :
    (∀ (t r : TableResult), t.filter = .ok r →
        List.Sublist r.events t.events ∧ r.events.length ≤ t.events.length ∧
          r.columns = t.columns ∧ r.schemaColumns = t.schemaColumns) ∧
    (∀ (t r : TableResult), t.offset = .ok r →
        List.Sublist r.events t.events ∧ r.events.length ≤ t.events.length ∧
          r.columns = t.columns ∧ r.schemaColumns = t.schemaColumns) ∧
    (∀ (t r : TableResult), t.limit = .ok r →
        List.Sublist r.events t.events ∧ r.events.length ≤ t.events.length ∧
          r.columns = t.columns ∧ r.schemaColumns = t.schemaColumns) ∧
    (∀ (t r : TableResult), t.project = .ok r →
        r.events.length = t.events.length ∧ r.schemaColumns = t.schemaColumns ∧
          List.Forall₂ (fun b a => b.extraText = a.extraText) r.events t.events) ∧
    (∀ (t r : TableResult) (q : QueryAst) (sel : SelectBody),
        t.statement = some (.query q) → q.body = .select sel → t.project = .ok r →
        List.Forall₂ (projStep (.query q) sel.projection) r.events t.events) := by
  refine ⟨?_, ?_, ?_, ?_, ?_⟩
  · intro t r h
    unfold TableResult.filter at h
    split at h
    · cases h
      exact ⟨List.Sublist.refl _, Nat.le_refl _, rfl, rfl⟩
    · split at h
      · cases h
      · cases h
        exact ⟨List.Sublist.refl _, Nat.le_refl _, rfl, rfl⟩
      · cases h
        exact ⟨selectByIndexFrom_sublist _ 0 t.events,
          (selectByIndexFrom_sublist _ 0 t.events).length_le, rfl, rfl⟩
  · rintro ⟨cols, events, sc, stmt⟩ r h
    cases stmt with
    | none =>
      cases h
      exact ⟨List.Sublist.refl _, Nat.le_refl _, rfl, rfl⟩
    | some s =>
      cases s with
      | otherStatement =>
        cases h
        exact ⟨List.Sublist.refl _, Nat.le_refl _, rfl, rfl⟩
      | query q =>
        obtain ⟨body, ob, lim, off⟩ := q
        cases off with
        | none =>
          cases h
          exact ⟨List.Sublist.refl _, Nat.le_refl _, rfl, rfl⟩
        | some offc =>
          obtain ⟨val⟩ := offc
          cases val with
          | value v =>
            cases v with
            | number text flag =>
              simp only [TableResult.offset] at h
              cases hp : parseUsize text with
              | none =>
                rw [hp] at h
                simp only [unwrap, exc_bind_error] at h
                cases h
              | some n =>
                rw [hp] at h
                simp only [unwrap, exc_bind_ok] at h
                split at h
                · cases h
                  exact ⟨List.nil_sublist _, by simp, rfl, rfl⟩
                · cases h
                  exact ⟨List.drop_sublist n events,
                    (List.drop_sublist n events).length_le, rfl, rfl⟩
            | singleQuotedString s2 => cases h
            | boolean b2 => cases h
          | identifier nm => cases h
          | binaryOp l op rr => cases h
          | otherExpr => cases h
  · rintro ⟨cols, events, sc, stmt⟩ r h
    cases stmt with
    | none =>
      cases h
      exact ⟨List.Sublist.refl _, Nat.le_refl _, rfl, rfl⟩
    | some s =>
      cases s with
      | otherStatement =>
        cases h
        exact ⟨List.Sublist.refl _, Nat.le_refl _, rfl, rfl⟩
      | query q =>
        obtain ⟨body, ob, lim, off⟩ := q
        cases lim with
        | none =>
          cases h
          exact ⟨List.Sublist.refl _, Nat.le_refl _, rfl, rfl⟩
        | some e =>
          cases e with
          | value v =>
            cases v with
            | number text flag =>
              simp only [TableResult.limit] at h
              cases hp : parseUsize text with
              | none =>
                rw [hp] at h
                simp only [unwrap, exc_bind_error] at h
                cases h
              | some n =>
                rw [hp] at h
                simp only [unwrap, exc_bind_ok] at h
                cases h
                exact ⟨List.take_sublist _ events,
                  (List.take_sublist _ events).length_le, rfl, rfl⟩
            | singleQuotedString s2 => cases h
            | boolean b2 => cases h
          | identifier nm => cases h
          | binaryOp l op rr => cases h
          | otherExpr => cases h
  · rintro ⟨cols, events, sc, stmt⟩ r h
    cases stmt with
    | none =>
      cases h
      exact ⟨rfl, rfl,
        @forall2_of_refl (fun b a => b.extraText = a.extraText) (fun a => rfl) events⟩
    | some s =>
      cases s with
      | otherStatement =>
        cases h
        exact ⟨rfl, rfl,
          @forall2_of_refl (fun b a => b.extraText = a.extraText) (fun a => rfl) events⟩
      | query q =>
        obtain ⟨body, ob, lim, off⟩ := q
        cases body with
        | otherBody => cases h
        | select sel =>
          obtain ⟨items, selc⟩ := sel
          simp only [TableResult.project] at h
          cases hpe : projectEvents
              (.query ⟨.select ⟨items, selc⟩, ob, lim, off⟩) items [] events none with
          | error f =>
            rw [hpe] at h
            cases h
          | ok triple =>
            obtain ⟨evs2, cols2, early2⟩ := triple
            rw [hpe] at h
            have hlen := projectEvents_length
              (.query ⟨.select ⟨items, selc⟩, ob, lim, off⟩) items events [] none
              evs2 cols2 early2 hpe
            simp only [List.length_nil, Nat.zero_add] at hlen
            obtain ⟨rest2, hout, hfa⟩ := projectEvents_forall2
              (.query ⟨.select ⟨items, selc⟩, ob, lim, off⟩) items events [] none
              evs2 cols2 early2 hpe
            simp only [List.nil_append] at hout
            subst hout
            cases early2 with
            | true =>
              simp only [if_true] at h
              cases h
              refine ⟨hlen, rfl, List.Forall₂.imp ?_ hfa⟩
              intro a b hab
              exact hab.1
            | false =>
              simp only [Bool.false_eq_true, if_false] at h
              cases cols2 with
              | some cs =>
                cases h
                refine ⟨hlen, rfl, List.Forall₂.imp ?_ hfa⟩
                intro a b hab
                exact hab.1
              | none =>
                cases h
                refine ⟨hlen, rfl, List.Forall₂.imp ?_ hfa⟩
                intro a b hab
                exact hab.1
  · rintro ⟨cols, events, sc, stmt⟩ r q ⟨items0, selc0⟩ h1 h2 h
    simp only at h1 h2
    subst h1
    obtain ⟨body, ob, lim, off⟩ := q
    simp only at h2
    subst h2
    simp only [TableResult.project] at h
    cases hpe : projectEvents
        (.query ⟨.select ⟨items0, selc0⟩, ob, lim, off⟩) items0 [] events none with
    | error f =>
      rw [hpe] at h
      cases h
    | ok triple =>
      obtain ⟨evs2, cols2, early2⟩ := triple
      rw [hpe] at h
      obtain ⟨rest2, hout, hfa⟩ := projectEvents_forall2
        (.query ⟨.select ⟨items0, selc0⟩, ob, lim, off⟩) items0 events [] none
        evs2 cols2 early2 hpe
      simp only [List.nil_append] at hout
      subst hout
      cases early2 with
      | true =>
        simp only [if_true] at h
        cases h
        exact hfa
      | false =>
        simp only [Bool.false_eq_true, if_false] at h
        cases cols2 with
        | some cs =>
          cases h
          exact hfa
        | none =>
          cases h
          exact hfa

/-- Witness for `pipeline_stage_invariants`: the filter `col1 = '2'` on the
three sample rows keeps a one-row subsequence with unchanged columns. -/
theorem pipeline_stage_invariants_witness :
    List.Sublist [(⟨[("col1", Ty.str "2"), ("col2", Ty.str "two")], none⟩ : Event)]
        threeRows ∧
      ([(⟨[("col1", Ty.str "2"), ("col2", Ty.str "two")], none⟩ : Event)]).length ≤
        threeRows.length ∧ ["col1", "col2"] = ["col1", "col2"] ∧
      twoColSchema = twoColSchema := by
  have h := pipeline_stage_invariants.1
    (mkTableResult twoColSchema threeRows
      (some (selectStatement [.wildcard]
        (some (.binaryOp (.identifier "col1") .eq (.value (.singleQuotedString "2"))))
        [] none none)))
    { mkTableResult twoColSchema threeRows
        (some (selectStatement [.wildcard]
          (some (.binaryOp (.identifier "col1") .eq (.value (.singleQuotedString "2"))))
          [] none none)) with
      events := [⟨[("col1", Ty.str "2"), ("col2", Ty.str "two")], none⟩] }
    (by decide)
  exact h

/-- **C3.** For every record sequence, schema, column, literal and supported
comparison operator, filtering with the WHERE clause `literal OP column`
yields exactly the same surviving events as filtering with the flipped form
`column OP' literal`.  The statement is fully generic in the schema and
events, so it covers all 7 column types (and the error outcomes agree as
well, since both routes run the identical evaluator). -/
theorem filter_flip_equivalence (cols : List String) (events : List Event)
    (sc : List SchemaColumn) (column : String) (lit : Value) (op : BinaryOperator)
    (hop : op ≠ .other) :
    (TableResult.filter ⟨cols, events, sc, some (selectStatement [.wildcard]
        (some (.binaryOp (.value lit) op (.identifier column))) [] none none)⟩).map
        (fun r => r.events) =
    (TableResult.filter ⟨cols, events, sc, some (selectStatement [.wildcard]
        (some (.binaryOp (.identifier column) (flipOp op) (.value lit))) [] none none)⟩).map
        (fun r => r.events) := by
  cases op with
  | other => exact absurd rfl hop
  | eq =>
    simp only [TableResult.filter, filterIndexes, processFilter, filterBinaryOp,
      routeFilterLiteralWithColumn, routeFilterColumnWithLiteral, flipOp, selectStatement]
    cases hX : filterColumnWithLiteral sc events column lit eqCompare <;>
      simp [hX, Except.map]
  | notEq =>
    simp only [TableResult.filter, filterIndexes, processFilter, filterBinaryOp,
      routeFilterLiteralWithColumn, routeFilterColumnWithLiteral, flipOp, selectStatement]
    cases hX : filterColumnWithLiteral sc events column lit neCompare <;>
      simp [hX, Except.map]
  | lt =>
    simp only [TableResult.filter, filterIndexes, processFilter, filterBinaryOp,
      routeFilterLiteralWithColumn, routeFilterColumnWithLiteral, flipOp, selectStatement]
    cases hX : filterColumnWithLiteral sc events column lit gtCompare <;>
      simp [hX, Except.map]
  | gt =>
    simp only [TableResult.filter, filterIndexes, processFilter, filterBinaryOp,
      routeFilterLiteralWithColumn, routeFilterColumnWithLiteral, flipOp, selectStatement]
    cases hX : filterColumnWithLiteral sc events column lit ltCompare <;>
      simp [hX, Except.map]
  | ltEq =>
    simp only [TableResult.filter, filterIndexes, processFilter, filterBinaryOp,
      routeFilterLiteralWithColumn, routeFilterColumnWithLiteral, flipOp, selectStatement]
    cases hX : filterColumnWithLiteral sc events column lit geCompare <;>
      simp [hX, Except.map]
  | gtEq =>
    simp only [TableResult.filter, filterIndexes, processFilter, filterBinaryOp,
      routeFilterLiteralWithColumn, routeFilterColumnWithLiteral, flipOp, selectStatement]
    cases hX : filterColumnWithLiteral sc events column lit leCompare <;>
      simp [hX, Except.map]

/-- Witness for `filter_flip_equivalence`: `'2' = col1` filters the three
sample rows exactly as `col1 = '2'` does. -/
theorem filter_flip_equivalence_witness :
    (TableResult.filter ⟨twoColSchema.map (fun c => c.name), threeRows, twoColSchema,
        some (selectStatement [.wildcard]
          (some (.binaryOp (.value (.singleQuotedString "2")) .eq (.identifier "col1")))
          [] none none)⟩).map (fun r => r.events) =
    (TableResult.filter ⟨twoColSchema.map (fun c => c.name), threeRows, twoColSchema,
        some (selectStatement [.wildcard]
          (some (.binaryOp (.identifier "col1") (flipOp .eq) (.value (.singleQuotedString "2"))))
          [] none none)⟩).map (fun r => r.events) :=
  filter_flip_equivalence (twoColSchema.map (fun c => c.name)) threeRows twoColSchema
    "col1" (.singleQuotedString "2") .eq (by decide)

theorem eqCompare_mismatch (ct : ColumnType) (ty : Ty) (v : Value)
    (h : eqKindsAgree ct ty v = false) :
    eqCompare ct ty v = .error (.error (.typeMismatch ct ty v)) := by
  cases ct <;> cases ty <;> cases v <;>
    first
    | rfl
    | (rename_i flag
       cases flag <;> first | rfl | exact absurd h (by simp [eqKindsAgree]))

theorem neCompare_mismatch (ct : ColumnType) (ty : Ty) (v : Value)
    (h : eqKindsAgree ct ty v = false) :
    neCompare ct ty v = .error (.error (.typeMismatch ct ty v)) := by
  cases ct <;> cases ty <;> cases v <;>
    first
    | rfl
    | (rename_i flag
       cases flag <;> first | rfl | exact absurd h (by simp [eqKindsAgree]))

theorem ltCompare_mismatch (ct : ColumnType) (ty : Ty) (v : Value)
    (h : ordKindsAgree ct ty v = false) :
    ltCompare ct ty v = .error (.error (.typeMismatch ct ty v)) := by
  cases ct <;> cases ty <;> cases v <;>
    first
    | rfl
    | (rename_i flag
       cases flag <;> first | rfl | exact absurd h (by simp [ordKindsAgree]))

theorem gtCompare_mismatch (ct : ColumnType) (ty : Ty) (v : Value)
    (h : ordKindsAgree ct ty v = false) :
    gtCompare ct ty v = .error (.error (.typeMismatch ct ty v)) := by
  cases ct <;> cases ty <;> cases v <;>
    first
    | rfl
    | (rename_i flag
       cases flag <;> first | rfl | exact absurd h (by simp [ordKindsAgree]))

theorem leCompare_mismatch (ct : ColumnType) (ty : Ty) (v : Value)
    (h : ordKindsAgree ct ty v = false) :
    leCompare ct ty v = .error (.error (.typeMismatch ct ty v)) := by
  cases ct <;> cases ty <;> cases v <;>
    first
    | rfl
    | (rename_i flag
       cases flag <;> first | rfl | exact absurd h (by simp [ordKindsAgree]))

theorem geCompare_mismatch (ct : ColumnType) (ty : Ty) (v : Value)
    (h : ordKindsAgree ct ty v = false) :
    geCompare ct ty v = .error (.error (.typeMismatch ct ty v)) := by
  cases ct <;> cases ty <;> cases v <;>
    first
    | rfl
    | (rename_i flag
       cases flag <;> first | rfl | exact absurd h (by simp [ordKindsAgree]))

/-- **C4 (counterexample).** A decimal literal against an `Int32` column
matches the `Number` arm (the syntactic kind check cannot tell integer from
decimal text), so the filter panics at `i32::from_str("2.5").unwrap()`
instead of returning the claimed `TypeMismatch` error. -/
theorem int32_decimal_literal_panics :
    TableResult.filter (mkTableResult intSchema intRow
        (some (selectStatement [.wildcard]
          (some (.binaryOp (.identifier "n") .eq (.value (.number "2.5" false))))
          [] none none))) = .error .panicked := by decide

/-- **C4 (amended).** Whenever the declared `ColumnType`, the runtime
variant and the literal's coarse syntactic kind (quoted string vs numeric
text vs boolean, with integer and decimal numeric text indistinguishable)
do not all agree per the operator's arm table, every comparison closure
returns the `TypeMismatch` error carrying the declared type, the actual
value and the offending literal; and any comparison error aborts the whole
scan rather than dropping the row.  (When the coarse kinds agree but the
numeric text fails to parse at the column's width — e.g. decimal text
against an integer column — the stage panics instead; see the
counterexample.) -/
theorem type_mismatch_on_kind_disagreement :
    (∀ (ct : ColumnType) (ty : Ty) (v : Value), eqKindsAgree ct ty v = false →
        eqCompare ct ty v = .error (.error (.typeMismatch ct ty v)) ∧
          neCompare ct ty v = .error (.error (.typeMismatch ct ty v))) ∧
    (∀ (ct : ColumnType) (ty : Ty) (v : Value), ordKindsAgree ct ty v = false →
        ltCompare ct ty v = .error (.error (.typeMismatch ct ty v)) ∧
          gtCompare ct ty v = .error (.error (.typeMismatch ct ty v)) ∧
          leCompare ct ty v = .error (.error (.typeMismatch ct ty v)) ∧
          geCompare ct ty v = .error (.error (.typeMismatch ct ty v))) ∧
    (∀ (cmp : ColumnType → Ty → Value → Exc Bool) (st : ColumnType) (column : String)
        (lit : Value) (i : Nat) (ev : Event) (rest : List Event) (f : Fault) (ty : Ty),
        mapGet ev.values column = some ty → cmp st ty lit = .error f →
        survivingIndicesFrom cmp st column lit i (ev :: rest) = .error f) := by
  refine ⟨fun ct ty v h => ⟨eqCompare_mismatch ct ty v h, neCompare_mismatch ct ty v h⟩,
    fun ct ty v h => ⟨ltCompare_mismatch ct ty v h, gtCompare_mismatch ct ty v h,
      leCompare_mismatch ct ty v h, geCompare_mismatch ct ty v h⟩, ?_⟩
  intro cmp st column lit i ev rest f ty hget hcmp
  simp only [survivingIndicesFrom, hget, hcmp, unwrap, exc_bind_ok, exc_bind_error]

/-- Witness for `type_mismatch_on_kind_disagreement`: a quoted-string
literal against an `Int32` column is a `TypeMismatch` carrying the declared
type, the runtime value and the literal. -/
theorem type_mismatch_on_kind_disagreement_witness :
    eqCompare .int32 (.int32 1) (.singleQuotedString "x") =
      .error (.error (.typeMismatch .int32 (.int32 1) (.singleQuotedString "x"))) :=
  (type_mismatch_on_kind_disagreement.1 .int32 (.int32 1) (.singleQuotedString "x")
    (by decide)).1

theorem simVal_refl {α : Type} (x : Exc α) : SimVal x x := by
  cases x <;> simp [SimVal]

theorem routeColumn_sim (cols : List String) (events : List Event)
    (sc : List SchemaColumn) (stmt : Option Statement) (ob : List OrderByExpr)
    (column : String) (lit : Value) (op : BinaryOperator) :
    SimVal (routeFilterColumnWithLiteral (setOrderBy ⟨cols, events, sc, stmt⟩ ob)
        column lit op)
      (routeFilterColumnWithLiteral ⟨cols, events, sc, stmt⟩ column lit op) := by
  cases op <;>
    first
    | exact simVal_refl _
    | (cases stmt <;>
        simp [routeFilterColumnWithLiteral, setOrderBy, setOrderByStmt, SimVal])

theorem routeLiteral_sim (cols : List String) (events : List Event)
    (sc : List SchemaColumn) (stmt : Option Statement) (ob : List OrderByExpr)
    (lit : Value) (column : String) (op : BinaryOperator) :
    SimVal (routeFilterLiteralWithColumn (setOrderBy ⟨cols, events, sc, stmt⟩ ob)
        lit column op)
      (routeFilterLiteralWithColumn ⟨cols, events, sc, stmt⟩ lit column op) := by
  cases op <;>
    first
    | exact simVal_refl _
    | (cases stmt <;>
        simp [routeFilterLiteralWithColumn, setOrderBy, setOrderByStmt, SimVal])

theorem filterBinaryOp_sim (cols : List String) (events : List Event)
    (sc : List SchemaColumn) (stmt : Option Statement) (ob : List OrderByExpr)
    (l : Expr) (op : BinaryOperator) (r : Expr) (s1 s2 : Statement) :
    SimVal (filterBinaryOp (setOrderBy ⟨cols, events, sc, stmt⟩ ob) l op r s1)
      (filterBinaryOp ⟨cols, events, sc, stmt⟩ l op r s2) := by
  cases l <;> cases r <;>
    first
    | exact routeColumn_sim cols events sc stmt ob _ _ op
    | exact routeLiteral_sim cols events sc stmt ob _ _ op
    | simp [filterBinaryOp, SimVal]

theorem processFilter_sim (cols : List String) (events : List Event)
    (sc : List SchemaColumn) (stmt : Option Statement) (ob : List OrderByExpr)
    (e : Expr) (s1 s2 : Statement) :
    SimVal (processFilter (setOrderBy ⟨cols, events, sc, stmt⟩ ob) e s1)
      (processFilter ⟨cols, events, sc, stmt⟩ e s2) := by
  cases e <;>
    first
    | exact filterBinaryOp_sim cols events sc stmt ob _ _ _ s1 s2
    | simp [processFilter, SimVal]

theorem filter_sim (t : TableResult) (ob : List OrderByExpr) :
    SimOrd ob ((setOrderBy t ob).filter) (t.filter) := by
  obtain ⟨cols, events, sc, stmt⟩ := t
  cases stmt with
  | none => simp [TableResult.filter, setOrderBy, SimOrd]
  | some s =>
    cases s with
    | otherStatement =>
      simp [TableResult.filter, filterIndexes, setOrderBy, setOrderByStmt, SimOrd]
    | query q =>
      obtain ⟨body, ob0, lim, off⟩ := q
      cases body with
      | otherBody =>
        simp [TableResult.filter, filterIndexes, setOrderBy, setOrderByStmt, SimOrd]
      | select sel =>
        obtain ⟨items, selc⟩ := sel
        cases selc with
        | none =>
          simp [TableResult.filter, filterIndexes, setOrderBy, setOrderByStmt, SimOrd]
        | some expr =>
          have hsim := processFilter_sim cols events sc
            (some (.query ⟨.select ⟨items, some expr⟩, ob0, lim, off⟩)) ob expr
            (setOrderByStmt (.query ⟨.select ⟨items, some expr⟩, ob0, lim, off⟩) ob)
            (.query ⟨.select ⟨items, some expr⟩, ob0, lim, off⟩)
          simp only [TableResult.filter, filterIndexes, setOrderBy, setOrderByStmt,
            Option.map] at hsim ⊢
          cases hL : processFilter
              ⟨cols, events, sc, some (.query ⟨.select ⟨items, some expr⟩, ob, lim, off⟩)⟩
              expr (.query ⟨.select ⟨items, some expr⟩, ob, lim, off⟩) with
          | ok idxL =>
            cases hR : processFilter
                ⟨cols, events, sc, some (.query ⟨.select ⟨items, some expr⟩, ob0, lim, off⟩)⟩
                expr (.query ⟨.select ⟨items, some expr⟩, ob0, lim, off⟩) with
            | ok idxR =>
              rw [hL, hR] at hsim
              simp only [SimVal] at hsim
              subst hsim
              simp [hL, hR, Except.map, SimOrd, setOrderBy, setOrderByStmt]
            | error fR =>
              rw [hL, hR] at hsim
              simp [SimVal] at hsim
          | error fL =>
            cases hR : processFilter
                ⟨cols, events, sc, some (.query ⟨.select ⟨items, some expr⟩, ob0, lim, off⟩)⟩
                expr (.query ⟨.select ⟨items, some expr⟩, ob0, lim, off⟩) with
            | ok idxR =>
              rw [hL, hR] at hsim
              simp [SimVal] at hsim
            | error fR =>
              simp [hL, hR, Except.map, SimOrd]

theorem projectItems_sim (s1 s2 : Statement) (cu : Bool) :
    ∀ (items : List SelectItem) (rem proj : List (String × Ty)) (colsAcc : List String),
      SimVal (projectItems s1 cu items rem proj colsAcc)
        (projectItems s2 cu items rem proj colsAcc) := by
  intro items
  induction items with
  | nil => intro rem proj colsAcc; exact simVal_refl _
  | cons item rest ih =>
    intro rem proj colsAcc
    cases item with
    | wildcard => exact simVal_refl _
    | unnamedExpr e =>
      cases e with
      | identifier name =>
        simp only [projectItems]
        cases hmr : mapRemove rem name with
        | mk o m =>
          cases o with
          | some v => simp only [hmr]; exact ih m (mapInsert proj name v) _
          | none => simp only [hmr]; simp [SimVal]
      | value v => simp [projectItems, SimVal]
      | binaryOp l op r => simp [projectItems, SimVal]
      | otherExpr => simp [projectItems, SimVal]
    | exprWithAlias e a =>
      cases e with
      | identifier name =>
        simp only [projectItems]
        cases hmr : mapRemove rem name with
        | mk o m =>
          cases o with
          | some v => simp only [hmr]; exact ih m (mapInsert proj a v) _
          | none => simp only [hmr]; simp [SimVal]
      | value v => simp [projectItems, SimVal]
      | binaryOp l op r => simp [projectItems, SimVal]
      | otherExpr => simp [projectItems, SimVal]
    | otherItem => simp [projectItems, SimVal]

theorem projectEvents_sim (s1 s2 : Statement) (items : List SelectItem) :
    ∀ (evs processed : List Event) (colsAcc : Option (List String)),
      SimVal (projectEvents s1 items processed evs colsAcc)
        (projectEvents s2 items processed evs colsAcc) := by
  intro evs
  induction evs with
  | nil => intro processed colsAcc; exact simVal_refl _
  | cons ev rest ih =>
    intro processed colsAcc
    simp only [projectEvents]
    have hsim := projectItems_sim s1 s2 colsAcc.isNone items ev.values [] []
    cases hL : projectItems s1 colsAcc.isNone items ev.values [] [] with
    | ok oL =>
      cases hR : projectItems s2 colsAcc.isNone items ev.values [] [] with
      | ok oR =>
        rw [hL, hR] at hsim
        simp only [SimVal] at hsim
        subst hsim
        cases oL with
        | earlyReturn vals => exact simVal_refl _
        | proceed vals innerCols => exact ih _ _
      | error fR => rw [hL, hR] at hsim; simp [SimVal] at hsim
    | error fL =>
      cases hR : projectItems s2 colsAcc.isNone items ev.values [] [] with
      | ok oR => rw [hL, hR] at hsim; simp [SimVal] at hsim
      | error fR => simp [SimVal]

theorem project_sim (t : TableResult) (ob : List OrderByExpr) :
    SimOrd ob ((setOrderBy t ob).project) (t.project) := by
  obtain ⟨cols, events, sc, stmt⟩ := t
  cases stmt with
  | none => simp [TableResult.project, setOrderBy, SimOrd]
  | some s =>
    cases s with
    | otherStatement =>
      simp [TableResult.project, setOrderBy, setOrderByStmt, SimOrd]
    | query q =>
      obtain ⟨body, ob0, lim, off⟩ := q
      cases body with
      | otherBody =>
        simp [TableResult.project, setOrderBy, setOrderByStmt, SimOrd]
      | select sel =>
        obtain ⟨items, selc⟩ := sel
        have hsim := projectEvents_sim
          (setOrderByStmt (.query ⟨.select ⟨items, selc⟩, ob0, lim, off⟩) ob)
          (.query ⟨.select ⟨items, selc⟩, ob0, lim, off⟩) items events [] none
        simp only [TableResult.project, setOrderBy, setOrderByStmt, Option.map] at hsim ⊢
        cases hL : projectEvents (.query ⟨.select ⟨items, selc⟩, ob, lim, off⟩)
            items [] events none with
        | ok tripleL =>
          cases hR : projectEvents (.query ⟨.select ⟨items, selc⟩, ob0, lim, off⟩)
              items [] events none with
          | ok tripleR =>
            rw [hL, hR] at hsim
            simp only [SimVal] at hsim
            subst hsim
            obtain ⟨evs2, cols2, early2⟩ := tripleL
            cases early2 with
            | true => simp [SimOrd, setOrderBy, setOrderByStmt]
            | false =>
              cases cols2 with
              | some cs => simp [SimOrd, setOrderBy, setOrderByStmt]
              | none => simp [SimOrd, setOrderBy, setOrderByStmt]
          | error fR => rw [hL, hR] at hsim; simp [SimVal] at hsim
        | error fL =>
          cases hR : projectEvents (.query ⟨.select ⟨items, selc⟩, ob0, lim, off⟩)
              items [] events none with
          | ok tripleR => rw [hL, hR] at hsim; simp [SimVal] at hsim
          | error fR => simp [hL, hR, SimOrd]

theorem offset_sim (t : TableResult) (ob : List OrderByExpr) :
    SimOrd ob ((setOrderBy t ob).offset) (t.offset) := by
  obtain ⟨cols, events, sc, stmt⟩ := t
  cases stmt with
  | none => simp [TableResult.offset, setOrderBy, SimOrd]
  | some s =>
    cases s with
    | otherStatement =>
      simp [TableResult.offset, setOrderBy, setOrderByStmt, SimOrd]
    | query q =>
      obtain ⟨body, ob0, lim, off⟩ := q
      cases off with
      | none => simp [TableResult.offset, setOrderBy, setOrderByStmt, SimOrd]
      | some offc =>
        obtain ⟨val⟩ := offc
        cases val with
        | value v =>
          cases v with
          | number text flag =>
            simp only [TableResult.offset, setOrderBy, setOrderByStmt, Option.map]
            cases hp : parseUsize text with
            | none => simp [hp, unwrap, exc_bind_error, SimOrd]
            | some n =>
              simp only [hp, unwrap, exc_bind_ok]
              split <;> simp [SimOrd, setOrderBy, setOrderByStmt]
          | singleQuotedString s2 =>
            simp [TableResult.offset, setOrderBy, setOrderByStmt, SimOrd]
          | boolean b2 =>
            simp [TableResult.offset, setOrderBy, setOrderByStmt, SimOrd]
        | identifier nm =>
          simp [TableResult.offset, setOrderBy, setOrderByStmt, SimOrd]
        | binaryOp l op rr =>
          simp [TableResult.offset, setOrderBy, setOrderByStmt, SimOrd]
        | otherExpr =>
          simp [TableResult.offset, setOrderBy, setOrderByStmt, SimOrd]

theorem limit_sim (t : TableResult) (ob : List OrderByExpr) :
    SimOrd ob ((setOrderBy t ob).limit) (t.limit) := by
  obtain ⟨cols, events, sc, stmt⟩ := t
  cases stmt with
  | none => simp [TableResult.limit, setOrderBy, SimOrd]
  | some s =>
    cases s with
    | otherStatement =>
      simp [TableResult.limit, setOrderBy, setOrderByStmt, SimOrd]
    | query q =>
      obtain ⟨body, ob0, lim, off⟩ := q
      cases lim with
      | none => simp [TableResult.limit, setOrderBy, setOrderByStmt, SimOrd]
      | some e =>
        cases e with
        | value v =>
          cases v with
          | number text flag =>
            simp only [TableResult.limit, setOrderBy, setOrderByStmt, Option.map]
            cases hp : parseUsize text with
            | none => simp [hp, unwrap, exc_bind_error, SimOrd]
            | some n =>
              simp [hp, unwrap, exc_bind_ok, SimOrd, setOrderBy, setOrderByStmt]
          | singleQuotedString s2 =>
            simp [TableResult.limit, setOrderBy, setOrderByStmt, SimOrd]
          | boolean b2 =>
            simp [TableResult.limit, setOrderBy, setOrderByStmt, SimOrd]
        | identifier nm =>
          simp [TableResult.limit, setOrderBy, setOrderByStmt, SimOrd]
        | binaryOp l op rr =>
          simp [TableResult.limit, setOrderBy, setOrderByStmt, SimOrd]
        | otherExpr =>
          simp [TableResult.limit, setOrderBy, setOrderByStmt, SimOrd]

theorem simOrd_bind (ob : List OrderByExpr) (x y : Exc TableResult)
    (f g : TableResult → Exc TableResult) (hxy : SimOrd ob x y)
    (hfg : ∀ b : TableResult, SimOrd ob (f (setOrderBy b ob)) (g b)) :
    SimOrd ob (x >>= f) (y >>= g) := by
  cases x with
  | ok a =>
    cases y with
    | ok b =>
      simp only [SimOrd] at hxy
      subst hxy
      simp only [exc_bind_ok]
      exact hfg b
    | error fR => simp [SimOrd] at hxy
  | error fL =>
    cases y with
    | ok b => simp [SimOrd] at hxy
    | error fR => simp [exc_bind_error, SimOrd]

theorem process_sim (t : TableResult) (ob : List OrderByExpr) :
    SimOrd ob ((setOrderBy t ob).process) (t.process) := by
  unfold TableResult.process
  exact simOrd_bind ob _ _ _ _ (filter_sim t ob) (fun b1 =>
    simOrd_bind ob _ _ _ _ (project_sim b1 ob) (fun b2 =>
      simOrd_bind ob _ _ _ _ (offset_sim b2 ob) (fun b3 => limit_sim b3 ob)))

/-- **C1 (counterexample).** The spec's own ORDER BY scenario: rows
`(1,3),(2,2),(3,1)` with `SELECT * ORDER BY value` come back from the
pipeline in their original order — no OrderBy stage runs between Project
and Offset (or anywhere else), so the five-stage claim fails. -/
theorem order_by_scenario_not_sorted :
    TableResult.process (mkTableResult orderSchema orderRows
        (some (selectStatement [.wildcard] none
          [{ expr := .identifier "value", asc := some true }] none none))) =
      .ok (mkTableResult orderSchema orderRows
        (some (selectStatement [.wildcard] none
          [{ expr := .identifier "value", asc := some true }] none none))) ∧
    orderRows ≠ orderRowsSorted := by
  exact ⟨by decide, by decide⟩

/-- **C1 (amended).** Query execution applies exactly four stages in the
fixed order Filter, Project, Offset, Limit.  The `ORDER BY` list of the
statement is never examined: replacing it arbitrarily leaves every pipeline
outcome unchanged up to that field (`SimOrd`).  Offset is applied before
Limit regardless of clause order in the query text: with both clauses
present, the pipeline result is the post-Project events first dropped by
`M`, then cut to `N`. -/
theorem pipeline_fixed_order_no_order_by :
    (∀ (t : TableResult) (ob : List OrderByExpr),
        SimOrd ob ((setOrderBy t ob).process) (t.process)) ∧
    (∀ (t t1 t2 : TableResult) (q : QueryAst) (otext ltext : String)
        (oflag lflag : Bool) (m n : Nat),
        t.filter = .ok t1 → t1.project = .ok t2 →
        t2.statement = some (.query q) →
        q.offset = some { value := .value (.number otext oflag) } →
        q.limit = some (.value (.number ltext lflag)) →
        parseUsize otext = some m → parseUsize ltext = some n →
        t.process = .ok { t2 with events := (t2.events.drop m).take n }) := by
  refine ⟨process_sim, ?_⟩
  intro t t1 t2 q otext ltext oflag lflag m n hf hp hst ho hl hpo hpl
  simp only [TableResult.process, hf, hp, exc_bind_ok]
  rw [offset_numeric_drops t2 q otext oflag m hst ho hpo]
  simp only [exc_bind_ok]
  exact limit_numeric_takes { t2 with events := t2.events.drop m } q ltext lflag n
    (by simpa using hst) hl hpl

/-- Witness for `pipeline_fixed_order_no_order_by`: on the sample table with
`LIMIT 2 OFFSET 1` (no WHERE, `SELECT *`), the pipeline yields the slice
`rows[1..3]`. -/
theorem pipeline_fixed_order_no_order_by_witness :
    TableResult.process (mkTableResult twoColSchema threeRows
        (some (selectStatement [.wildcard] none []
          (some (.value (.number "2" false)))
          (some { value := .value (.number "1" false) })))) =
      .ok { mkTableResult twoColSchema threeRows
          (some (selectStatement [.wildcard] none []
            (some (.value (.number "2" false)))
            (some { value := .value (.number "1" false) }))) with
        events := (threeRows.drop 1).take 2 } :=
  pipeline_fixed_order_no_order_by.2
    (mkTableResult twoColSchema threeRows
      (some (selectStatement [.wildcard] none []
        (some (.value (.number "2" false)))
        (some { value := .value (.number "1" false) }))))
    (mkTableResult twoColSchema threeRows
      (some (selectStatement [.wildcard] none []
        (some (.value (.number "2" false)))
        (some { value := .value (.number "1" false) }))))
    (mkTableResult twoColSchema threeRows
      (some (selectStatement [.wildcard] none []
        (some (.value (.number "2" false)))
        (some { value := .value (.number "1" false) }))))
    { body := .select { projection := [.wildcard], selection := none }
      orderBy := [], limit := some (.value (.number "2" false))
      offset := some { value := .value (.number "1" false) } }
    "1" "2" false false 1 2 (by decide) (by decide) rfl rfl rfl (by decide) (by decide)

end LogQL
